import Mathlib

/-!
Shallow embedding of PulserBot's content-selection and coordination layer:
`SheetsService` from `src/services/sheets_service.py`, the rotation controller
`_get_rotating_content` from `src/services/dynamic_content_service.py`, and the
job-lock functions `check_if_job_ran` / `mark_job_as_triggered` of
`trigger_jobs.py`.

A worksheet is embedded as its grid of cells (the result of
`worksheet.get_all_values()`): a list of rows, each a list of cell strings,
with row 1 the header row.  Timestamps and the draw made by `random.choice`
enter as explicit parameters.  Python's `str.upper` / `str.lower` are modelled
on their ASCII fragment (`Char.toUpper` / `Char.toLower`), which covers every
string the service compares against.
-/

namespace PulserBot

abbrev Cells := List (List String)

/-- Python `str.upper()` (ASCII fragment). -/
def strUpper (s : String) : String := ⟨s.data.map Char.toUpper⟩

/-- Python `str.lower()` (ASCII fragment). -/
def strLower (s : String) : String := ⟨s.data.map Char.toLower⟩

/-- Accumulator loop of `dict(zip(header, row)).get(key, "")`: the value of the
last pair whose column name is `key`, defaulting to `""` (also when the row is
shorter than the header, since `zip` truncates). -/
def rowGetGo (key : String) : String → List (String × String) → String
  | acc, [] => acc
  | acc, p :: ps => rowGetGo key (if p.1 = key then p.2 else acc) ps

/-- `dict(zip(header, row)).get(key, "")`. -/
def rowGet (header row : List String) (key : String) : String :=
  rowGetGo key "" (header.zip row)

/-- Python `list.index`: index of the first occurrence, `none` standing for the
ValueError raised when the element is absent. -/
def listIndex : List String → String → Option Nat
  | [], _ => none
  | h :: t, key => if h = key then some 0 else (listIndex t key).map (· + 1)

/-- Write `v` at 0-based position `i` of a row, padding with empty cells the
way the remote grid materialises a write past the row's current width. -/
def padSet : List String → Nat → String → List String
  | [], 0, v => [v]
  | [], i+1, v => "" :: padSet [] i v
  | _ :: rest, 0, v => v :: rest
  | x :: rest, i+1, v => x :: padSet rest i v

/-- Apply `f` to the row at 0-based position `n`. -/
def listModify (f : List String → List String) : Nat → Cells → Cells
  | _, [] => []
  | 0, row :: rest => f row :: rest
  | n+1, row :: rest => row :: listModify f n rest

/-- One `gspread.Cell(row=r, col=c, value=v)` write, 1-based coordinates. -/
def setCell (cells : Cells) (r c : Nat) (v : String) : Cells :=
  listModify (fun row => padSet row (c - 1) v) (r - 1) cells

/-- `worksheet.update_cells(updates)`: one batched write of a list of cells. -/
def update_cells (cells : Cells) (updates : List (Nat × Nat × String)) : Cells :=
  updates.foldl (fun cs upd => setCell cs upd.1 upd.2.1 upd.2.2) cells

/-- The value shown at 1-based position `(r, c)` of the grid (an absent cell
reads as the empty string, as in `get_all_values`' padded rectangle). -/
def getCell (cells : Cells) (r c : Nat) : String :=
  (((cells[r - 1]?).getD [])[c - 1]?).getD ""

/-! ## sheets_service.py -/

/-- `str(row.get("used", "")).upper() == "FALSE"` from `_filter_unused_items`. -/
def isUnusedRow (header row : List String) : Bool :=
  strUpper (rowGet header row "used") == "FALSE"

/-- `str(row.get("language", "")).lower() == language`; `none` matches every
row (the source only tests the language when a filter is given). -/
def langMatches (header : List String) (language : Option String) (row : List String) : Bool :=
  match language with
  | some lang => strLower (rowGet header row "language") == lang
  | none => true

/-- The `for i, row in enumerate(records)` loop of
`SheetsService._filter_unused_items`, entered at running index `i`. -/
def filterUnusedFrom (header : List String) (language : Option String) :
    Nat → List (List String) → List (Nat × List String)
  | _, [] => []
  | i, row :: rest =>
    let is_unused := strUpper (rowGet header row "used") == "FALSE"
    let keep := match language with
      | some lang => is_unused && (strLower (rowGet header row "language") == lang)
      | none => is_unused
    if keep then (i + 2, row) :: filterUnusedFrom header language (i + 1) rest
    else filterUnusedFrom header language (i + 1) rest

/-- `SheetsService._filter_unused_items(records, language)`. -/
def filter_unused_items (header : List String) (records : List (List String))
    (language : Option String) : List (Nat × List String) :=
  filterUnusedFrom header language 0 records

/-- The update-building loop of `_reset_used_flags`: the 1-based row numbers
whose `used` cell receives a `"FALSE"` write. -/
def resetRowsFrom (header : List String) (language : Option String) :
    Nat → List (List String) → List Nat
  | _, [] => []
  | i, row :: rest =>
    let keep := match language with
      | some lang => strLower (rowGet header row "language") == lang
      | none => true
    if keep then (i + 2) :: resetRowsFrom header language (i + 1) rest
    else resetRowsFrom header language (i + 1) rest

/-- `SheetsService._reset_used_flags`; `some cells` is the post-write grid of a
call returning True, `none` a call returning False (empty sheet, `used` header
absent, or no rows to reset). -/
def reset_used_flags (cells : Cells) (language : Option String) : Option Cells :=
  if cells.length < 2 then none
  else
    match listIndex (cells.headD []) "used" with
    | none => none
    | some u =>
      let rows := resetRowsFrom (cells.headD []) language 0 cells.tail
      if rows.isEmpty then none
      else some (update_cells cells (rows.map fun r => (r, u + 1, "FALSE")))

/-- `SheetsService.mark_item_as_used`; `now_str` is the formatted local
timestamp.  When either column is missing, `list.index` raises ValueError
before any write, and the source catches it: the grid is untouched. -/
def mark_item_as_used (cells : Cells) (row_index : Nat) (now_str : String) : Cells :=
  match listIndex (cells.headD []) "used", listIndex (cells.headD []) "date_used" with
  | some used_col, some date_used_col =>
    update_cells cells
      [(row_index, used_col + 1, "TRUE"), (row_index, date_used_col + 1, now_str)]
  | _, _ => cells

/-- `SheetsService.get_unused_item`.  `k` stands for the draw of
`random.choice`: with `n` candidates the call returns candidate `k % n`, so a
uniformly distributed draw yields a uniformly distributed candidate.  The
result pairs the selection outcome with the worksheet state after the call
(the reset path mutates the sheet; as in the source, the retry re-reads the
grid but keeps the header captured by the first read). -/
def get_unused_item (cells : Cells) (language : Option String) (k : Nat) :
    Option (Nat × List String) × Cells :=
  if cells.length < 2 then (none, cells)
  else
    let header := cells.headD []
    let unused_items := filter_unused_items header cells.tail language
    if unused_items.isEmpty then
      match reset_used_flags cells language with
      | none => (none, cells)
      | some cells2 =>
        let unused2 := filter_unused_items header cells2.tail language
        if unused2.isEmpty then (none, cells2)
        else (some (unused2.getD (k % unused2.length) (0, [])), cells2)
    else (some (unused_items.getD (k % unused_items.length) (0, [])), cells)

/-! ## trigger_jobs.py -/

/-- `worksheet.col_values(1)`: the first cell of every row. -/
def col_values_1 (cells : Cells) : List String :=
  cells.map (fun row => row.getD 0 "")

/-- `check_if_job_ran`.  `scan` is the outcome of `worksheet.col_values(1)`;
`none` models the except-branch (API error), in which case the job is assumed
to have run. -/
def check_if_job_ran (scan : Option (List String)) (job_key : String) : Bool :=
  match scan with
  | some all_job_keys_in_sheet => all_job_keys_in_sheet.contains job_key
  | none => true

/-- `check_if_job_ran` against the ledger grid when the scan succeeds. -/
def has_run (cells : Cells) (job_key : String) : Bool :=
  check_if_job_ran (some (col_values_1 cells)) job_key

/-- `mark_job_as_triggered`: `worksheet.append_row([job_key, ts, "TRIGGERED"])`. -/
def mark_job_as_triggered (cells : Cells) (job_key timestamp_utc : String) : Cells :=
  cells ++ [[job_key, timestamp_utc, "TRIGGERED"]]

/-- Following the spec's words (not the source): the values of the ledger
column whose header cell is named `job_key`, located by name. -/
def key_column_values (cells : Cells) : List String :=
  match listIndex (cells.headD []) "job_key" with
  | some j => cells.tail.map (fun row => row.getD j "")
  | none => []

inductive DispatchAction where
  | recordRun : String → DispatchAction
  | invokeJob : String → DispatchAction
deriving DecidableEq, Repr

/-- The per-slot body of `trigger_jobs.main` once the schedule-window test has
passed: consult the lock, and when clear, record the key and invoke
`run_once.py`.  The emitted action list keeps the source's order: the ledger
append precedes the subprocess call. -/
def dispatch_slot (cells : Cells) (scan : Option (List String))
    (time_key job_key ts : String) : List DispatchAction × Cells :=
  if check_if_job_ran scan job_key then ([], cells)
  else ([DispatchAction.recordRun job_key, DispatchAction.invokeJob time_key],
        mark_job_as_triggered cells job_key ts)

/-- Sequential dispatcher invocations against one ledger, all computing the
same `job_key` (same slot, same calendar day); each run re-reads column A. -/
def dispatch_runs (cells : Cells) (job_key : String) :
    List (String × String) → List DispatchAction × Cells
  | [] => ([], cells)
  | (time_key, ts) :: rest =>
    let step := dispatch_slot cells (some (col_values_1 cells)) time_key job_key ts
    let next := dispatch_runs step.2 job_key rest
    (step.1 ++ next.1, next.2)

/-! ## dynamic_content_service.py -/

/-- `_get_rotating_content`, from the point where the rotation worksheet has
been opened.  `data_sources` models the `app_config["data_sources"]` lookup
followed by `get_worksheet`: for a content key it yields the configured
`header_text` together with the opened payload grid (`none` inside when the
worksheet cannot be opened).  `k1`, `k2` are the two random draws and `now1`,
`now2` the two timestamps.  The result carries the `(header, body)` pair, the
rotation grid after the call, and the payload grid after the call when one was
opened. -/
def get_rotating_content (rotCells : Cells)
    (data_sources : String → Option (String × Option Cells))
    (k1 k2 : Nat) (now1 now2 : String) :
    (String × String) × Cells × Option Cells :=
  let sel := get_unused_item rotCells none k1
  match sel.1 with
  | none => (("Chyba", "Nepodarilo sa načítať typ obsahu."), sel.2, none)
  | some (rot_idx, rot_row) =>
    let content_type_key := rowGet (rotCells.headD []) rot_row "content"
    if content_type_key = "" then (("", ""), sel.2, none)
    else
      let rotCells2 := mark_item_as_used sel.2 rot_idx now1
      match data_sources content_type_key with
      | none => (("", ""), rotCells2, none)
      | some (header_text, none) =>
        ((header_text, "Obsah pre túto tému nie je dostupný."), rotCells2, none)
      | some (header_text, some contentCells) =>
        let csel := get_unused_item contentCells none k2
        match csel.1 with
        | none =>
          ((header_text, "Všetok obsah pre túto kategóriu sa vyčerpal."), rotCells2, some csel.2)
        | some (c_idx, c_row) =>
          let body := rowGet (contentCells.headD []) c_row "content"
          ((header_text, body), rotCells2, some (mark_item_as_used csel.2 c_idx now2))

/-- Whether the row at 1-based index `j` of the grid currently counts as
unused for the selection filter. -/
def rowUnused (cells : Cells) (j : Nat) : Bool :=
  isUnusedRow (cells.headD []) ((cells[j - 1]?).getD [])

/-! ## Grid primitives: lemmas -/

theorem headD_eq_getElem? {α : Type} (l : List α) (d : α) :
    l.headD d = (l[0]?).getD d := by
  cases l <;> simp

theorem tail_getElem? {α : Type} (l : List α) (n : Nat) :
    l.tail[n]? = l[n + 1]? := by
  cases l <;> simp

theorem padSet_getD_self (row : List String) (i : Nat) (v : String) :
    (padSet row i v).getD i "" = v := by
  induction row generalizing i with
  | nil =>
    induction i with
    | zero => rfl
    | succ n ih => simpa [padSet] using ih
  | cons x rest ih =>
    cases i with
    | zero => rfl
    | succ n => simpa [padSet] using ih n

theorem padSet_getD_ne (row : List String) (i j : Nat) (v : String) (h : j ≠ i) :
    (padSet row i v).getD j "" = row.getD j "" := by
  induction row generalizing i j with
  | nil =>
    induction i generalizing j with
    | zero =>
      cases j with
      | zero => exact absurd rfl h
      | succ m => simp [padSet]
    | succ n ih =>
      cases j with
      | zero => simp [padSet]
      | succ m => simpa [padSet] using ih m (by omega)
  | cons x rest ih =>
    cases i with
    | zero =>
      cases j with
      | zero => exact absurd rfl h
      | succ m => simp [padSet]
    | succ n =>
      cases j with
      | zero => simp [padSet]
      | succ m => simpa [padSet] using ih n m (by omega)

theorem listModify_length (f : List String → List String) (n : Nat) (l : Cells) :
    (listModify f n l).length = l.length := by
  induction l generalizing n with
  | nil => cases n <;> rfl
  | cons row rest ih =>
    cases n with
    | zero => rfl
    | succ m => simpa [listModify] using ih m

theorem listModify_getElem?_self (f : List String → List String) (n : Nat) (l : Cells) :
    (listModify f n l)[n]? = (l[n]?).map f := by
  induction l generalizing n with
  | nil => cases n <;> simp [listModify]
  | cons row rest ih =>
    cases n with
    | zero => simp [listModify]
    | succ m => simpa [listModify] using ih m

theorem listModify_getElem?_ne (f : List String → List String) (n m : Nat) (l : Cells)
    (h : m ≠ n) : (listModify f n l)[m]? = l[m]? := by
  induction l generalizing n m with
  | nil => cases n <;> simp [listModify]
  | cons row rest ih =>
    cases n with
    | zero =>
      cases m with
      | zero => exact absurd rfl h
      | succ m2 => simp [listModify]
    | succ n2 =>
      cases m with
      | zero => simp [listModify]
      | succ m2 => simpa [listModify] using ih n2 m2 (by omega)

theorem setCell_length (cells : Cells) (r c : Nat) (v : String) :
    (setCell cells r c v).length = cells.length :=
  listModify_length _ _ _

theorem setCell_getElem?_row_self (cells : Cells) (r c : Nat) (v : String) :
    (setCell cells r c v)[r - 1]? =
      (cells[r - 1]?).map (fun row => padSet row (c - 1) v) :=
  listModify_getElem?_self _ _ _

theorem setCell_getElem?_row_ne (cells : Cells) (r c : Nat) (v : String) (m : Nat)
    (h : m ≠ r - 1) : (setCell cells r c v)[m]? = cells[m]? :=
  listModify_getElem?_ne _ _ _ _ h

theorem getCell_setCell_self (cells : Cells) (r c : Nat) (v : String)
    (hr : r - 1 < cells.length) :
    getCell (setCell cells r c v) r c = v := by
  unfold getCell
  rw [setCell_getElem?_row_self, List.getElem?_eq_getElem hr]
  have := padSet_getD_self (cells[r - 1]) (c - 1) v
  rw [List.getD_eq_getElem?_getD] at this
  simpa using this

theorem getCell_setCell_ne (cells : Cells) (r c : Nat) (v : String) (r' c' : Nat)
    (h1 : 1 ≤ r) (h2 : 1 ≤ c) (h3 : 1 ≤ r') (h4 : 1 ≤ c')
    (hne : r' ≠ r ∨ c' ≠ c) :
    getCell (setCell cells r c v) r' c' = getCell cells r' c' := by
  unfold getCell
  rcases eq_or_ne (r' - 1) (r - 1) with hr | hr
  · have hcc : c' - 1 ≠ c - 1 := by
      rcases hne with hne | hne
      · exact absurd (by omega : r' = r) hne
      · omega
    rw [hr, setCell_getElem?_row_self]
    cases hx : cells[r - 1]? with
    | none => simp
    | some row =>
      have := padSet_getD_ne row (c - 1) (c' - 1) v hcc
      rw [List.getD_eq_getElem?_getD, List.getD_eq_getElem?_getD] at this
      simpa using this
  · rw [setCell_getElem?_row_ne cells r c v (r' - 1) hr]

theorem update_cells_length (cells : Cells) (updates : List (Nat × Nat × String)) :
    (update_cells cells updates).length = cells.length := by
  induction updates generalizing cells with
  | nil => rfl
  | cons upd rest ih =>
    simpa [update_cells, setCell_length] using ih (setCell cells upd.1 upd.2.1 upd.2.2)

theorem update_cells_cons (cells : Cells) (upd : Nat × Nat × String)
    (rest : List (Nat × Nat × String)) :
    update_cells cells (upd :: rest) =
      update_cells (setCell cells upd.1 upd.2.1 upd.2.2) rest := rfl

theorem getCell_update_cells_ne (cells : Cells) (updates : List (Nat × Nat × String))
    (r c : Nat) (h1 : 1 ≤ r) (h2 : 1 ≤ c)
    (h : ∀ upd ∈ updates, 1 ≤ upd.1 ∧ 1 ≤ upd.2.1 ∧ (r ≠ upd.1 ∨ c ≠ upd.2.1)) :
    getCell (update_cells cells updates) r c = getCell cells r c := by
  induction updates generalizing cells with
  | nil => rfl
  | cons upd rest ih =>
    rw [update_cells_cons, ih _ (fun u hu => h u (List.mem_cons_of_mem _ hu))]
    have hu := h upd (List.mem_cons_self _ _)
    exact getCell_setCell_ne cells upd.1 upd.2.1 upd.2.2 r c hu.1 hu.2.1 h1 h2 hu.2.2

theorem update_cells_getElem?_row_ne (cells : Cells) (updates : List (Nat × Nat × String))
    (m : Nat) (h : ∀ upd ∈ updates, upd.1 - 1 ≠ m) :
    (update_cells cells updates)[m]? = cells[m]? := by
  induction updates generalizing cells with
  | nil => rfl
  | cons upd rest ih =>
    rw [update_cells_cons, ih _ (fun u hu => h u (List.mem_cons_of_mem _ hu))]
    exact setCell_getElem?_row_ne _ _ _ _ _ (fun he => h upd (List.mem_cons_self _ _) he.symm)

theorem getCell_update_cells_last (cells : Cells) (us vs : List (Nat × Nat × String))
    (r c : Nat) (v : String) (h1 : 1 ≤ r) (h2 : 1 ≤ c) (hr : r - 1 < cells.length)
    (hvs : ∀ upd ∈ vs, 1 ≤ upd.1 ∧ 1 ≤ upd.2.1 ∧ (r ≠ upd.1 ∨ c ≠ upd.2.1)) :
    getCell (update_cells cells (us ++ (r, c, v) :: vs)) r c = v := by
  have hsplit : update_cells cells (us ++ (r, c, v) :: vs) =
      update_cells (setCell (update_cells cells us) r c v) vs := by
    unfold update_cells
    rw [List.foldl_append]
    rfl
  rw [hsplit, getCell_update_cells_ne _ vs r c h1 h2 hvs]
  exact getCell_setCell_self _ r c v (by rw [update_cells_length]; exact hr)

/-! ## Column lookup: lemmas -/

theorem rowGetGo_of_forall_ne (key acc : String) (ps : List (String × String))
    (h : ∀ p ∈ ps, p.1 ≠ key) : rowGetGo key acc ps = acc := by
  induction ps generalizing acc with
  | nil => rfl
  | cons p rest ih =>
    rw [rowGetGo, if_neg (h p (List.mem_cons_self _ _))]
    exact ih _ (fun q hq => h q (List.mem_cons_of_mem _ hq))

theorem rowGet_of_count_zero (header row : List String) (key : String)
    (h : header.count key = 0) : rowGet header row key = "" := by
  refine rowGetGo_of_forall_ne key "" (header.zip row) (fun p hp he => ?_)
  exact (List.count_eq_zero.mp h) (he ▸ (List.of_mem_zip hp).1)

theorem rowGet_eq_getD (header row : List String) (key : String) (u : Nat)
    (hcount : header.count key = 1) (hu : header[u]? = some key) :
    rowGet header row key = row.getD u "" := by
  induction header generalizing row u with
  | nil => simp at hu
  | cons x t ih =>
    cases row with
    | nil =>
      simp [rowGet, rowGetGo]
    | cons v vs =>
      cases u with
      | zero =>
        have hx : x = key := by simpa using hu
        have ht : t.count key = 0 := by
          have hcc := List.count_cons key x t
          rw [hcount] at hcc
          simp [hx] at hcc
          omega
        have hnot : ∀ p ∈ t.zip vs, p.1 ≠ key := fun p hp he =>
          (List.count_eq_zero.mp ht) (he ▸ (List.of_mem_zip hp).1)
        show rowGetGo key (if x = key then v else "") (t.zip vs) = _
        rw [if_pos hx, rowGetGo_of_forall_ne key v (t.zip vs) hnot]
        simp
      | succ n =>
        have hun : t[n]? = some key := by simpa using hu
        have hmem : key ∈ t := by
          obtain ⟨hlt, he⟩ := List.getElem?_eq_some.mp hun
          exact he ▸ List.getElem_mem hlt
        have hx : x ≠ key := by
          intro he
          have hcc := List.count_cons key x t
          rw [hcount] at hcc
          simp [he] at hcc
          exact (List.count_eq_zero.mp (by omega)) hmem
        have ht : t.count key = 1 := by
          have hcc := List.count_cons key x t
          rw [hcount] at hcc
          simp [hx] at hcc
          omega
        show rowGetGo key (if x = key then v else "") (t.zip vs) = _
        rw [if_neg hx]
        simpa using ih vs n ht hun

theorem count_le_one_cases (header : List String) (key : String)
    (h : header.count key ≤ 1) :
    header.count key = 0 ∨ ∃ u : Nat, header.count key = 1 ∧ header[u]? = some key := by
  rcases Nat.lt_or_ge (header.count key) 1 with h0 | h1
  · exact Or.inl (by omega)
  · have hc : header.count key = 1 := by omega
    have hmem : key ∈ header := List.count_pos_iff.mp (by omega)
    obtain ⟨n, hn, he⟩ := List.mem_iff_getElem.mp hmem
    exact Or.inr ⟨n, hc, by rw [List.getElem?_eq_getElem hn, he]⟩

theorem rowGet_padSet_ne (header row : List String) (key name : String) (u : Nat)
    (v : String) (hcount : header.count key ≤ 1) (hu : header[u]? = some name)
    (hne : name ≠ key) :
    rowGet header (padSet row u v) key = rowGet header row key := by
  rcases count_le_one_cases header key hcount with h0 | ⟨m, hc, hm⟩
  · rw [rowGet_of_count_zero _ _ _ h0, rowGet_of_count_zero _ _ _ h0]
  · have hmu : m ≠ u := by
      intro he
      rw [he, hu] at hm
      exact hne (by simpa using hm)
    rw [rowGet_eq_getD _ _ _ m hc hm, rowGet_eq_getD _ _ _ m hc hm,
      padSet_getD_ne row u m v hmu]

theorem listIndex_getElem? (l : List String) (key : String) (u : Nat)
    (h : listIndex l key = some u) : l[u]? = some key := by
  induction l generalizing u with
  | nil => simp [listIndex] at h
  | cons x t ih =>
    by_cases hx : x = key
    · rw [listIndex, if_pos hx] at h
      cases h
      simpa using hx
    · rw [listIndex, if_neg hx] at h
      cases hi : listIndex t key with
      | none => rw [hi] at h; simp at h
      | some n =>
        rw [hi] at h
        simp at h
        subst h
        simpa using ih n hi

theorem listIndex_eq_some (l : List String) (key : String) (u : Nat)
    (hcount : l.count key = 1) (hu : l[u]? = some key) :
    listIndex l key = some u := by
  induction l generalizing u with
  | nil => simp at hu
  | cons x t ih =>
    cases u with
    | zero =>
      have hx : x = key := by simpa using hu
      rw [listIndex, if_pos hx]
    | succ n =>
      have hun : t[n]? = some key := by simpa using hu
      have hmem : key ∈ t := by
        obtain ⟨hlt, he⟩ := List.getElem?_eq_some.mp hun
        exact he ▸ List.getElem_mem hlt
      have hx : x ≠ key := by
        intro he
        have hcc := List.count_cons key x t
        rw [hcount] at hcc
        simp [he] at hcc
        exact (List.count_eq_zero.mp (by omega)) hmem
      have ht : t.count key = 1 := by
        have hcc := List.count_cons key x t
        rw [hcount] at hcc
        simp [hx] at hcc
        omega
      rw [listIndex, if_neg hx, ih n ht hun]
      rfl

theorem listIndex_ne (l : List String) (k1 k2 : String) (u d : Nat)
    (h1 : listIndex l k1 = some u) (h2 : listIndex l k2 = some d)
    (hk : k1 ≠ k2) : u ≠ d := by
  intro he
  have e1 := listIndex_getElem? l k1 u h1
  have e2 := listIndex_getElem? l k2 d h2
  rw [he, e2] at e1
  exact hk (by simpa using e1.symm)

/-! ## Selection filter and reset rows: lemmas -/

theorem getD_eq_getElem {α : Type} (l : List α) (n : Nat) (d : α) (h : n < l.length) :
    l.getD n d = l[n] := by
  rw [List.getD_eq_getElem?_getD, List.getElem?_eq_getElem h]
  rfl

theorem getD_mod_mem {α : Type} (l : List α) (k : Nat) (d : α) (h : l ≠ []) :
    l.getD (k % l.length) d ∈ l := by
  have hlen : 0 < l.length := List.length_pos.mpr h
  have hlt := Nat.mod_lt k hlen
  rw [getD_eq_getElem l _ d hlt]
  exact List.getElem_mem hlt

theorem filterUnusedFrom_cons (header : List String) (lang : Option String) (i : Nat)
    (row : List String) (rest : List (List String)) :
    filterUnusedFrom header lang i (row :: rest) =
      if isUnusedRow header row && langMatches header lang row then
        (i + 2, row) :: filterUnusedFrom header lang (i + 1) rest
      else filterUnusedFrom header lang (i + 1) rest := by
  cases lang <;> simp [filterUnusedFrom, isUnusedRow, langMatches]

theorem mem_filterUnusedFrom (header : List String) (lang : Option String)
    (rows : List (List String)) (i : Nat) (p : Nat × List String) :
    p ∈ filterUnusedFrom header lang i rows ↔
      ∃ j : Nat, rows[j]? = some p.2 ∧ p.1 = i + 2 + j ∧
        isUnusedRow header p.2 = true ∧ langMatches header lang p.2 = true := by
  obtain ⟨p1, p2⟩ := p
  induction rows generalizing i with
  | nil => simp [filterUnusedFrom]
  | cons row rest ih =>
    rw [filterUnusedFrom_cons]
    by_cases hk : (isUnusedRow header row && langMatches header lang row) = true
    · rw [if_pos hk]
      constructor
      · intro hmem
        rcases List.mem_cons.mp hmem with he | hmem2
        · obtain ⟨hk1, hk2⟩ : isUnusedRow header row = true ∧
              langMatches header lang row = true := by simpa using hk
          obtain ⟨he1, he2⟩ := Prod.mk.injEq .. ▸ he
          refine ⟨0, ?_, by omega, ?_, ?_⟩
          · simp [he2]
          · rw [he2]; exact hk1
          · rw [he2]; exact hk2
        · obtain ⟨j, h1, h2, h3, h4⟩ := (ih (i + 1)).mp hmem2
          exact ⟨j + 1, by simpa using h1, by omega, h3, h4⟩
      · rintro ⟨j, h1, h2, h3, h4⟩
        cases j with
        | zero =>
          have hrow : row = p2 := by simpa using h1
          apply List.mem_cons.mpr
          left
          rw [hrow]
          have : p1 = i + 2 := by omega
          rw [this]
        | succ n =>
          exact List.mem_cons_of_mem _
            ((ih (i + 1)).mpr ⟨n, by simpa using h1, by omega, h3, h4⟩)
    · rw [if_neg hk, ih (i + 1)]
      constructor
      · rintro ⟨j, h1, h2, h3, h4⟩
        exact ⟨j + 1, by simpa using h1, by omega, h3, h4⟩
      · rintro ⟨j, h1, h2, h3, h4⟩
        cases j with
        | zero =>
          exfalso
          have hrow : row = p2 := by simpa using h1
          rw [← hrow] at h3 h4
          exact hk (by simp [h3, h4])
        | succ n => exact ⟨n, by simpa using h1, by omega, h3, h4⟩

theorem mem_filter_unused (header : List String) (rows : List (List String))
    (lang : Option String) (p : Nat × List String) :
    p ∈ filter_unused_items header rows lang ↔
      ∃ j : Nat, rows[j]? = some p.2 ∧ p.1 = j + 2 ∧
        isUnusedRow header p.2 = true ∧ langMatches header lang p.2 = true := by
  rw [filter_unused_items, mem_filterUnusedFrom]
  constructor
  · rintro ⟨j, h1, h2, h3, h4⟩
    exact ⟨j, h1, by omega, h3, h4⟩
  · rintro ⟨j, h1, h2, h3, h4⟩
    exact ⟨j, h1, by omega, h3, h4⟩

theorem filterUnusedFrom_fst_lower (header : List String) (lang : Option String)
    (rows : List (List String)) (i : Nat) :
    ∀ p ∈ filterUnusedFrom header lang i rows, i + 2 ≤ p.1 := by
  intro p hp
  obtain ⟨j, h1, h2, h3, h4⟩ := (mem_filterUnusedFrom header lang rows i p).mp hp
  omega

theorem filterUnusedFrom_pairwise (header : List String) (lang : Option String)
    (rows : List (List String)) (i : Nat) :
    (filterUnusedFrom header lang i rows).Pairwise (fun p q => p.1 < q.1) := by
  induction rows generalizing i with
  | nil => simp [filterUnusedFrom]
  | cons row rest ih =>
    rw [filterUnusedFrom_cons]
    by_cases hk : (isUnusedRow header row && langMatches header lang row) = true
    · rw [if_pos hk]
      refine List.Pairwise.cons (fun q hq => ?_) (ih (i + 1))
      have := filterUnusedFrom_fst_lower header lang rest (i + 1) q hq
      omega
    · rw [if_neg hk]
      exact ih (i + 1)

theorem resetRowsFrom_cons (header : List String) (lang : Option String) (i : Nat)
    (row : List String) (rest : List (List String)) :
    resetRowsFrom header lang i (row :: rest) =
      if langMatches header lang row then
        (i + 2) :: resetRowsFrom header lang (i + 1) rest
      else resetRowsFrom header lang (i + 1) rest := by
  cases lang <;> simp [resetRowsFrom, langMatches]

theorem mem_resetRowsFrom (header : List String) (lang : Option String)
    (rows : List (List String)) (i r : Nat) :
    r ∈ resetRowsFrom header lang i rows ↔
      ∃ (j : Nat) (row : List String), rows[j]? = some row ∧ r = i + 2 + j ∧
        langMatches header lang row = true := by
  induction rows generalizing i with
  | nil => simp [resetRowsFrom]
  | cons row rest ih =>
    rw [resetRowsFrom_cons]
    by_cases hk : langMatches header lang row = true
    · rw [if_pos hk]
      constructor
      · intro hmem
        rcases List.mem_cons.mp hmem with he | hmem2
        · exact ⟨0, row, by simp, by omega, hk⟩
        · obtain ⟨j, row2, h1, h2, h3⟩ := (ih (i + 1)).mp hmem2
          exact ⟨j + 1, row2, by simpa using h1, by omega, h3⟩
      · rintro ⟨j, row2, h1, h2, h3⟩
        cases j with
        | zero => exact List.mem_cons.mpr (Or.inl (by omega))
        | succ n =>
          exact List.mem_cons_of_mem _
            ((ih (i + 1)).mpr ⟨n, row2, by simpa using h1, by omega, h3⟩)
    · rw [if_neg hk, ih (i + 1)]
      constructor
      · rintro ⟨j, row2, h1, h2, h3⟩
        exact ⟨j + 1, row2, by simpa using h1, by omega, h3⟩
      · rintro ⟨j, row2, h1, h2, h3⟩
        cases j with
        | zero =>
          exfalso
          have hrow : row = row2 := by simpa using h1
          rw [← hrow] at h3
          exact hk h3
        | succ n => exact ⟨n, row2, by simpa using h1, by omega, h3⟩

theorem resetRowsFrom_lower (header : List String) (lang : Option String)
    (rows : List (List String)) (i : Nat) :
    ∀ r ∈ resetRowsFrom header lang i rows, i + 2 ≤ r := by
  intro r hr
  obtain ⟨j, row, h1, h2, h3⟩ := (mem_resetRowsFrom header lang rows i r).mp hr
  omega

theorem resetRowsFrom_upper (header : List String) (lang : Option String)
    (rows : List (List String)) (i : Nat) :
    ∀ r ∈ resetRowsFrom header lang i rows, r < i + 2 + rows.length := by
  intro r hr
  obtain ⟨j, row, h1, h2, h3⟩ := (mem_resetRowsFrom header lang rows i r).mp hr
  have := (List.getElem?_eq_some.mp h1).1
  omega

theorem resetRowsFrom_pairwise (header : List String) (lang : Option String)
    (rows : List (List String)) (i : Nat) :
    (resetRowsFrom header lang i rows).Pairwise (· < ·) := by
  induction rows generalizing i with
  | nil => simp [resetRowsFrom]
  | cons row rest ih =>
    rw [resetRowsFrom_cons]
    by_cases hk : langMatches header lang row = true
    · rw [if_pos hk]
      refine List.Pairwise.cons (fun b hb => ?_) (ih (i + 1))
      have := resetRowsFrom_lower header lang rest (i + 1) b hb
      omega
    · rw [if_neg hk]
      exact ih (i + 1)

theorem resetRowsFrom_nodup (header : List String) (lang : Option String)
    (rows : List (List String)) (i : Nat) :
    (resetRowsFrom header lang i rows).Nodup :=
  (resetRowsFrom_pairwise header lang rows i).imp (fun h => Nat.ne_of_lt h)

/-! ## reset_used_flags and get_unused_item: behaviour lemmas -/

theorem update_cells_append_cons (cells : Cells) (us vs : List (Nat × Nat × String))
    (mid : Nat × Nat × String) :
    update_cells cells (us ++ mid :: vs) =
      update_cells (setCell (update_cells cells us) mid.1 mid.2.1 mid.2.2) vs := by
  unfold update_cells
  rw [List.foldl_append]
  rfl

theorem reset_used_flags_eq (cells : Cells) (lang : Option String) :
    reset_used_flags cells lang =
      if cells.length < 2 then none
      else
        match listIndex (cells.headD []) "used" with
        | none => none
        | some u =>
          if (resetRowsFrom (cells.headD []) lang 0 cells.tail).isEmpty then none
          else some (update_cells cells
            ((resetRowsFrom (cells.headD []) lang 0 cells.tail).map
              fun r => (r, u + 1, "FALSE"))) := rfl

theorem get_unused_item_eq (cells : Cells) (lang : Option String) (k : Nat) :
    get_unused_item cells lang k =
      if cells.length < 2 then (none, cells)
      else
        if (filter_unused_items (cells.headD []) cells.tail lang).isEmpty then
          match reset_used_flags cells lang with
          | none => (none, cells)
          | some cells2 =>
            if (filter_unused_items (cells.headD []) cells2.tail lang).isEmpty then
              (none, cells2)
            else
              (some ((filter_unused_items (cells.headD []) cells2.tail lang).getD
                (k % (filter_unused_items (cells.headD []) cells2.tail lang).length)
                (0, [])), cells2)
        else
          (some ((filter_unused_items (cells.headD []) cells.tail lang).getD
            (k % (filter_unused_items (cells.headD []) cells.tail lang).length)
            (0, [])), cells) := rfl

theorem length_two_of_tail_ne_nil (cells : Cells) (h : cells.tail ≠ []) :
    ¬ cells.length < 2 := by
  rcases cells with _ | ⟨a, t⟩
  · exact absurd rfl h
  · rcases t with _ | ⟨b, t2⟩
    · exact absurd rfl h
    · simp

theorem get_unused_item_of_nonempty (cells : Cells) (lang : Option String) (k : Nat)
    (hne : filter_unused_items (cells.headD []) cells.tail lang ≠ []) :
    get_unused_item cells lang k =
      (some ((filter_unused_items (cells.headD []) cells.tail lang).getD
        (k % (filter_unused_items (cells.headD []) cells.tail lang).length) (0, [])),
       cells) := by
  have htail : cells.tail ≠ [] := by
    intro h0
    apply hne
    rw [h0]
    rfl
  rw [get_unused_item_eq, if_neg (length_two_of_tail_ne_nil cells htail),
    if_neg (by simpa [List.isEmpty_iff] using hne)]

theorem get_unused_item_exhausted_none (cells : Cells) (lang : Option String) (k : Nat)
    (he : filter_unused_items (cells.headD []) cells.tail lang = [])
    (hr : reset_used_flags cells lang = none) :
    get_unused_item cells lang k = (none, cells) := by
  rw [get_unused_item_eq]
  by_cases hlen : cells.length < 2
  · rw [if_pos hlen]
  · rw [if_neg hlen, if_pos (by rw [he]; rfl), hr]

theorem get_unused_item_exhausted_some (cells : Cells) (lang : Option String) (k : Nat)
    (cells2 : Cells)
    (he : filter_unused_items (cells.headD []) cells.tail lang = [])
    (hr : reset_used_flags cells lang = some cells2) :
    get_unused_item cells lang k =
      if (filter_unused_items (cells.headD []) cells2.tail lang).isEmpty then
        (none, cells2)
      else
        (some ((filter_unused_items (cells.headD []) cells2.tail lang).getD
          (k % (filter_unused_items (cells.headD []) cells2.tail lang).length)
          (0, [])), cells2) := by
  have hlen : ¬ cells.length < 2 := by
    intro h
    rw [reset_used_flags_eq, if_pos h] at hr
    cases hr
  rw [get_unused_item_eq, if_neg hlen, if_pos (by rw [he]; rfl), hr]

theorem reset_used_flags_some_elim (cells : Cells) (lang : Option String) (cells2 : Cells)
    (hr : reset_used_flags cells lang = some cells2) :
    2 ≤ cells.length ∧
    ∃ u : Nat, listIndex (cells.headD []) "used" = some u ∧
      resetRowsFrom (cells.headD []) lang 0 cells.tail ≠ [] ∧
      cells2 = update_cells cells
        ((resetRowsFrom (cells.headD []) lang 0 cells.tail).map
          fun r => (r, u + 1, "FALSE")) := by
  rw [reset_used_flags_eq] at hr
  split at hr
  · cases hr
  next hlen =>
    split at hr
    · cases hr
    next u hidx =>
      split at hr
      · cases hr
      next hemp =>
        exact ⟨by omega, u, hidx, by simpa [List.isEmpty_iff] using hemp,
          (Option.some.inj hr).symm⟩

theorem reset_used_flags_some_intro (cells : Cells) (lang : Option String) (u : Nat)
    (hlen : 2 ≤ cells.length)
    (hu : listIndex (cells.headD []) "used" = some u)
    (hrows : resetRowsFrom (cells.headD []) lang 0 cells.tail ≠ []) :
    reset_used_flags cells lang =
      some (update_cells cells ((resetRowsFrom (cells.headD []) lang 0 cells.tail).map
        fun r => (r, u + 1, "FALSE"))) := by
  rw [reset_used_flags_eq, if_neg (by omega)]
  split
  next hidx =>
    rw [hu] at hidx
    cases hidx
  next u2 hidx =>
    rw [hu] at hidx
    obtain rfl : u2 = u := (Option.some.inj hidx).symm
    rw [if_neg (by simpa [List.isEmpty_iff] using hrows)]

theorem reset_used_flags_none_of_rows_nil (cells : Cells) (lang : Option String)
    (hrows : resetRowsFrom (cells.headD []) lang 0 cells.tail = []) :
    reset_used_flags cells lang = none := by
  rw [reset_used_flags_eq]
  by_cases hlen : cells.length < 2
  · rw [if_pos hlen]
  · rw [if_neg hlen]
    split
    · rfl
    next u hidx => rw [if_pos (by rw [hrows]; rfl)]

theorem reset_length (cells : Cells) (lang : Option String) (cells2 : Cells)
    (hr : reset_used_flags cells lang = some cells2) :
    cells2.length = cells.length := by
  obtain ⟨_, u, _, _, he⟩ := reset_used_flags_some_elim cells lang cells2 hr
  rw [he, update_cells_length]

theorem reset_headD (cells : Cells) (lang : Option String) (cells2 : Cells)
    (hr : reset_used_flags cells lang = some cells2) :
    cells2.headD [] = cells.headD [] := by
  obtain ⟨_, u, _, _, he⟩ := reset_used_flags_some_elim cells lang cells2 hr
  have h0 : cells2[0]? = cells[0]? := by
    rw [he]
    apply update_cells_getElem?_row_ne
    intro upd hupd
    obtain ⟨x, hx, rfl⟩ := List.mem_map.mp hupd
    have := resetRowsFrom_lower (cells.headD []) lang cells.tail 0 x hx
    show x - 1 ≠ 0
    omega
  rw [headD_eq_getElem?, headD_eq_getElem?, h0]

theorem reset_cell_false (cells : Cells) (lang : Option String) (u : Nat)
    (cells2 : Cells) (r : Nat)
    (hu : listIndex (cells.headD []) "used" = some u)
    (hr : reset_used_flags cells lang = some cells2)
    (hmem : r ∈ resetRowsFrom (cells.headD []) lang 0 cells.tail) :
    getCell cells2 r (u + 1) = "FALSE" := by
  obtain ⟨hlen, u2, hu2, hne, he⟩ := reset_used_flags_some_elim cells lang cells2 hr
  rw [hu] at hu2
  obtain rfl : u = u2 := Option.some.inj hu2
  obtain ⟨as, bs, hsplit⟩ := List.append_of_mem hmem
  have hnd := resetRowsFrom_nodup (cells.headD []) lang cells.tail 0
  rw [hsplit] at hnd
  obtain ⟨hndas, hndrb, hdisj⟩ := List.nodup_append.mp hnd
  have hrnotbs : r ∉ bs := (List.nodup_cons.mp hndrb).1
  have hlow := resetRowsFrom_lower (cells.headD []) lang cells.tail 0 r hmem
  have hup := resetRowsFrom_upper (cells.headD []) lang cells.tail 0 r hmem
  have hlentail : cells.tail.length = cells.length - 1 := List.length_tail cells
  rw [he, hsplit, List.map_append, List.map_cons]
  refine getCell_update_cells_last cells (as.map fun r => (r, u + 1, "FALSE"))
    (bs.map fun r => (r, u + 1, "FALSE")) r (u + 1) "FALSE" (by omega) (by omega)
    (by omega) ?_
  intro upd hupd
  obtain ⟨x, hx, rfl⟩ := List.mem_map.mp hupd
  have hxmem : x ∈ resetRowsFrom (cells.headD []) lang 0 cells.tail := by
    rw [hsplit]
    exact List.mem_append.mpr (Or.inr (List.mem_cons_of_mem _ hx))
  have := resetRowsFrom_lower (cells.headD []) lang cells.tail 0 x hxmem
  refine ⟨by show 1 ≤ x; omega, by show 1 ≤ u + 1; omega, Or.inl ?_⟩
  show r ≠ x
  intro heq
  rw [heq] at hrnotbs
  exact hrnotbs hx

theorem reset_cell_other (cells : Cells) (lang : Option String) (u : Nat)
    (cells2 : Cells) (r c : Nat)
    (hr : reset_used_flags cells lang = some cells2)
    (hu : listIndex (cells.headD []) "used" = some u)
    (h1 : 1 ≤ r) (h2 : 1 ≤ c)
    (hno : r ∉ resetRowsFrom (cells.headD []) lang 0 cells.tail ∨ c ≠ u + 1) :
    getCell cells2 r c = getCell cells r c := by
  obtain ⟨hlen, u2, hu2, hne, he⟩ := reset_used_flags_some_elim cells lang cells2 hr
  rw [hu] at hu2
  obtain rfl : u = u2 := Option.some.inj hu2
  rw [he]
  apply getCell_update_cells_ne _ _ _ _ h1 h2
  intro upd hupd
  obtain ⟨x, hx, rfl⟩ := List.mem_map.mp hupd
  have := resetRowsFrom_lower (cells.headD []) lang cells.tail 0 x hx
  refine ⟨by show 1 ≤ x; omega, by show 1 ≤ u + 1; omega, ?_⟩
  rcases hno with hno | hno
  · left
    show r ≠ x
    intro heq
    rw [heq] at hno
    exact hno hx
  · right
    exact hno

theorem reset_row_padSet (cells : Cells) (lang : Option String) (u : Nat)
    (cells2 : Cells) (j : Nat) (row : List String)
    (hu : listIndex (cells.headD []) "used" = some u)
    (hr : reset_used_flags cells lang = some cells2)
    (hrow : cells.tail[j]? = some row)
    (hmem : (j + 2) ∈ resetRowsFrom (cells.headD []) lang 0 cells.tail) :
    cells2.tail[j]? = some (padSet row u "FALSE") := by
  obtain ⟨hlen, u2, hu2, hne, he⟩ := reset_used_flags_some_elim cells lang cells2 hr
  rw [hu] at hu2
  obtain rfl : u = u2 := Option.some.inj hu2
  obtain ⟨as, bs, hsplit⟩ := List.append_of_mem hmem
  have hnd := resetRowsFrom_nodup (cells.headD []) lang cells.tail 0
  rw [hsplit] at hnd
  obtain ⟨hndas, hndrb, hdisj⟩ := List.nodup_append.mp hnd
  have hrnotbs : (j + 2) ∉ bs := (List.nodup_cons.mp hndrb).1
  have hrnotas : (j + 2) ∉ as := fun hin => hdisj hin (List.mem_cons_self _ _)
  rw [he, hsplit, List.map_append, List.map_cons, tail_getElem?,
    update_cells_append_cons]
  have hbs : ∀ upd ∈ bs.map (fun r => (r, u + 1, "FALSE")), upd.1 - 1 ≠ j + 1 := by
    intro upd hupd
    obtain ⟨x, hx, rfl⟩ := List.mem_map.mp hupd
    have hxmem : x ∈ resetRowsFrom (cells.headD []) lang 0 cells.tail := by
      rw [hsplit]
      exact List.mem_append.mpr (Or.inr (List.mem_cons_of_mem _ hx))
    have := resetRowsFrom_lower (cells.headD []) lang cells.tail 0 x hxmem
    have hxne : x ≠ j + 2 := fun heq => hrnotbs (heq ▸ hx)
    show x - 1 ≠ j + 1
    omega
  have has : ∀ upd ∈ as.map (fun r => (r, u + 1, "FALSE")), upd.1 - 1 ≠ j + 1 := by
    intro upd hupd
    obtain ⟨x, hx, rfl⟩ := List.mem_map.mp hupd
    have hxmem : x ∈ resetRowsFrom (cells.headD []) lang 0 cells.tail := by
      rw [hsplit]
      exact List.mem_append.mpr (Or.inl hx)
    have := resetRowsFrom_lower (cells.headD []) lang cells.tail 0 x hxmem
    have hxne : x ≠ j + 2 := fun heq => hrnotas (heq ▸ hx)
    show x - 1 ≠ j + 1
    omega
  rw [update_cells_getElem?_row_ne _ _ _ hbs]
  have hidx : j + 1 = (j + 2 : Nat) - 1 := by omega
  rw [hidx, setCell_getElem?_row_self, update_cells_getElem?_row_ne _ _ _
    (by rw [← hidx]; exact has)]
  rw [← hidx, ← tail_getElem?, hrow]
  rfl

/-! ## mark_item_as_used: behaviour lemmas -/

theorem rowGet_nil (header : List String) (key : String) : rowGet header [] key = "" := by
  rw [rowGet, List.zip_nil_right]
  rfl

theorem mark_eq_of_missing (cells : Cells) (r : Nat) (now : String)
    (h : listIndex (cells.headD []) "used" = none ∨
      listIndex (cells.headD []) "date_used" = none) :
    mark_item_as_used cells r now = cells := by
  cases hu : listIndex (cells.headD []) "used" with
  | none => simp only [mark_item_as_used, hu]
  | some u =>
    cases hd : listIndex (cells.headD []) "date_used" with
    | none => simp only [mark_item_as_used, hu, hd]
    | some d =>
      rcases h with h | h
      · rw [hu] at h
        cases h
      · rw [hd] at h
        cases h

theorem mark_eq_update (cells : Cells) (r : Nat) (now : String) (u d : Nat)
    (hu : listIndex (cells.headD []) "used" = some u)
    (hd : listIndex (cells.headD []) "date_used" = some d) :
    mark_item_as_used cells r now =
      update_cells cells [(r, u + 1, "TRUE"), (r, d + 1, now)] := by
  simp only [mark_item_as_used, hu, hd]

theorem mark_col_ne (cells : Cells) (u d : Nat)
    (hu : listIndex (cells.headD []) "used" = some u)
    (hd : listIndex (cells.headD []) "date_used" = some d) : u ≠ d :=
  listIndex_ne (cells.headD []) "used" "date_used" u d hu hd (by decide)

theorem mark_getCell_used (cells : Cells) (r : Nat) (now : String) (u d : Nat)
    (hu : listIndex (cells.headD []) "used" = some u)
    (hd : listIndex (cells.headD []) "date_used" = some d)
    (h1 : 1 ≤ r) (hr : r - 1 < cells.length) :
    getCell (mark_item_as_used cells r now) r (u + 1) = "TRUE" := by
  rw [mark_eq_update cells r now u d hu hd]
  have hud : u ≠ d := mark_col_ne cells u d hu hd
  have hsh : [(r, u + 1, "TRUE"), (r, d + 1, now)] =
      [] ++ (r, u + 1, "TRUE") :: [(r, d + 1, now)] := rfl
  rw [hsh]
  refine getCell_update_cells_last cells [] [(r, d + 1, now)] r (u + 1) "TRUE"
    h1 (by omega) hr ?_
  intro upd hupd
  obtain rfl := List.mem_singleton.mp hupd
  exact ⟨h1, by show 1 ≤ d + 1; omega, Or.inr (by show u + 1 ≠ d + 1; omega)⟩

theorem mark_getCell_date (cells : Cells) (r : Nat) (now : String) (u d : Nat)
    (hu : listIndex (cells.headD []) "used" = some u)
    (hd : listIndex (cells.headD []) "date_used" = some d)
    (h1 : 1 ≤ r) (hr : r - 1 < cells.length) :
    getCell (mark_item_as_used cells r now) r (d + 1) = now := by
  rw [mark_eq_update cells r now u d hu hd]
  have hsh : [(r, u + 1, "TRUE"), (r, d + 1, now)] =
      [(r, u + 1, "TRUE")] ++ (r, d + 1, now) :: [] := rfl
  rw [hsh]
  refine getCell_update_cells_last cells [(r, u + 1, "TRUE")] [] r (d + 1) now
    h1 (by omega) hr ?_
  intro upd hupd
  cases hupd

theorem mark_getCell_other_row (cells : Cells) (r : Nat) (now : String) (u d : Nat)
    (hu : listIndex (cells.headD []) "used" = some u)
    (hd : listIndex (cells.headD []) "date_used" = some d)
    (h1 : 1 ≤ r) (r' c' : Nat) (h3 : 1 ≤ r') (h4 : 1 ≤ c') (hner : r' ≠ r) :
    getCell (mark_item_as_used cells r now) r' c' = getCell cells r' c' := by
  rw [mark_eq_update cells r now u d hu hd]
  apply getCell_update_cells_ne _ _ _ _ h3 h4
  intro upd hupd
  rcases List.mem_cons.mp hupd with rfl | hupd2
  · exact ⟨h1, by show 1 ≤ u + 1; omega, Or.inl hner⟩
  · obtain rfl := List.mem_singleton.mp hupd2
    exact ⟨h1, by show 1 ≤ d + 1; omega, Or.inl hner⟩

theorem mark_getCell_other_col (cells : Cells) (r : Nat) (now : String) (u d : Nat)
    (hu : listIndex (cells.headD []) "used" = some u)
    (hd : listIndex (cells.headD []) "date_used" = some d)
    (h1 : 1 ≤ r) (c' : Nat) (h4 : 1 ≤ c') (hne1 : c' ≠ u + 1) (hne2 : c' ≠ d + 1) :
    getCell (mark_item_as_used cells r now) r c' = getCell cells r c' := by
  rw [mark_eq_update cells r now u d hu hd]
  apply getCell_update_cells_ne _ _ _ _ h1 h4
  intro upd hupd
  rcases List.mem_cons.mp hupd with rfl | hupd2
  · exact ⟨h1, by show 1 ≤ u + 1; omega, Or.inr (by show c' ≠ u + 1; omega)⟩
  · obtain rfl := List.mem_singleton.mp hupd2
    exact ⟨h1, by show 1 ≤ d + 1; omega, Or.inr (by show c' ≠ d + 1; omega)⟩

theorem mark_row_padSet (cells : Cells) (r : Nat) (now : String) (u d : Nat)
    (hu : listIndex (cells.headD []) "used" = some u)
    (hd : listIndex (cells.headD []) "date_used" = some d) :
    (mark_item_as_used cells r now)[r - 1]? =
      (cells[r - 1]?).map (fun row => padSet (padSet row u "TRUE") d now) := by
  rw [mark_eq_update cells r now u d hu hd]
  show (setCell (setCell cells r (u + 1) "TRUE") r (d + 1) now)[r - 1]? = _
  rw [setCell_getElem?_row_self, setCell_getElem?_row_self]
  cases cells[r - 1]? with
  | none => rfl
  | some row => simp [Nat.add_sub_cancel]

theorem mark_getElem?_row_ne (cells : Cells) (r : Nat) (now : String) (m : Nat)
    (hm : m ≠ r - 1) :
    (mark_item_as_used cells r now)[m]? = cells[m]? := by
  cases hu : listIndex (cells.headD []) "used" with
  | none => rw [mark_eq_of_missing cells r now (Or.inl hu)]
  | some u =>
    cases hd : listIndex (cells.headD []) "date_used" with
    | none => rw [mark_eq_of_missing cells r now (Or.inr hd)]
    | some d =>
      rw [mark_eq_update cells r now u d hu hd]
      apply update_cells_getElem?_row_ne
      intro upd hupd
      rcases List.mem_cons.mp hupd with rfl | hupd2
      · exact fun he => hm he.symm
      · obtain rfl := List.mem_singleton.mp hupd2
        exact fun he => hm he.symm

theorem mark_headD (cells : Cells) (r : Nat) (now : String) (h2r : 2 ≤ r) :
    (mark_item_as_used cells r now).headD [] = cells.headD [] := by
  rw [headD_eq_getElem?, headD_eq_getElem?,
    mark_getElem?_row_ne cells r now 0 (by omega)]

theorem mark_length (cells : Cells) (r : Nat) (now : String) :
    (mark_item_as_used cells r now).length = cells.length := by
  cases hu : listIndex (cells.headD []) "used" with
  | none => rw [mark_eq_of_missing cells r now (Or.inl hu)]
  | some u =>
    cases hd : listIndex (cells.headD []) "date_used" with
    | none => rw [mark_eq_of_missing cells r now (Or.inr hd)]
    | some d => rw [mark_eq_update cells r now u d hu hd, update_cells_length]

theorem isUnusedRow_after_mark (header row : List String) (u d : Nat) (now : String)
    (hcount : header.count "used" = 1)
    (hu : listIndex header "used" = some u)
    (hd : listIndex header "date_used" = some d) :
    isUnusedRow header (padSet (padSet row u "TRUE") d now) = false := by
  have hue := listIndex_getElem? header "used" u hu
  have hde := listIndex_getElem? header "date_used" d hd
  have h1 : rowGet header (padSet (padSet row u "TRUE") d now) "used"
      = rowGet header (padSet row u "TRUE") "used" :=
    rowGet_padSet_ne header (padSet row u "TRUE") "used" "date_used" d now
      (by omega) hde (by decide)
  have h2 : rowGet header (padSet row u "TRUE") "used" = (padSet row u "TRUE").getD u "" :=
    rowGet_eq_getD header _ "used" u hcount hue
  rw [isUnusedRow, h1, h2, padSet_getD_self]
  decide

theorem mark_not_in_filter (cells : Cells) (r : Nat) (now : String) (u d : Nat)
    (lang : Option String)
    (hcount : (cells.headD []).count "used" = 1)
    (hu : listIndex (cells.headD []) "used" = some u)
    (hd : listIndex (cells.headD []) "date_used" = some d)
    (h2r : 2 ≤ r) :
    ∀ p ∈ filter_unused_items (cells.headD [])
      (mark_item_as_used cells r now).tail lang, p.1 ≠ r := by
  intro p hp heq
  obtain ⟨j, hj, hpj, hun, hlang⟩ :=
    (mem_filter_unused (cells.headD []) (mark_item_as_used cells r now).tail lang p).mp hp
  rw [tail_getElem?] at hj
  have hj1 : j + 1 = r - 1 := by omega
  rw [hj1, mark_row_padSet cells r now u d hu hd] at hj
  cases hx : cells[r - 1]? with
  | none =>
    rw [hx] at hj
    cases hj
  | some row =>
    rw [hx] at hj
    have hp2 : p.2 = padSet (padSet row u "TRUE") d now := by simpa using hj.symm
    rw [hp2, isUnusedRow_after_mark (cells.headD []) row u d now hcount hu hd] at hun
    cases hun

/-! ## trigger_jobs: behaviour lemmas -/

theorem has_run_iff (cells : Cells) (job_key : String) :
    has_run cells job_key = true ↔ job_key ∈ col_values_1 cells := by
  show (col_values_1 cells).contains job_key = true ↔ _
  exact List.elem_iff

theorem has_run_append (cells : Cells) (job_key ts st : String) :
    has_run (cells ++ [[job_key, ts, st]]) job_key = true := by
  apply (has_run_iff _ _).mpr
  rw [col_values_1, List.map_append]
  exact List.mem_append.mpr (Or.inr (by simp))

theorem mark_job_has_run (cells : Cells) (job_key ts : String) :
    has_run (mark_job_as_triggered cells job_key ts) job_key = true :=
  has_run_append cells job_key ts "TRIGGERED"

theorem dispatch_slot_of_ran (cells : Cells) (scan : Option (List String))
    (time_key job_key ts : String) (h : check_if_job_ran scan job_key = true) :
    dispatch_slot cells scan time_key job_key ts = ([], cells) := by
  rw [dispatch_slot, if_pos h]

theorem dispatch_slot_of_clear (cells : Cells) (scan : Option (List String))
    (time_key job_key ts : String) (h : check_if_job_ran scan job_key = false) :
    dispatch_slot cells scan time_key job_key ts =
      ([DispatchAction.recordRun job_key, DispatchAction.invokeJob time_key],
        mark_job_as_triggered cells job_key ts) := by
  rw [dispatch_slot, if_neg (by rw [h]; simp)]

theorem dispatch_runs_of_ran (cells : Cells) (job_key : String)
    (runs : List (String × String)) (h : has_run cells job_key = true) :
    dispatch_runs cells job_key runs = ([], cells) := by
  induction runs with
  | nil => rfl
  | cons p rest ih =>
    obtain ⟨tk, ts⟩ := p
    simp only [dispatch_runs]
    rw [dispatch_slot_of_ran cells _ tk job_key ts h]
    simpa using ih

theorem dispatch_runs_record_once (cells : Cells) (job_key : String)
    (runs : List (String × String)) :
    (dispatch_runs cells job_key runs).1.count (DispatchAction.recordRun job_key) ≤ 1 := by
  induction runs generalizing cells with
  | nil => simp [dispatch_runs]
  | cons p rest ih =>
    obtain ⟨tk, ts⟩ := p
    simp only [dispatch_runs]
    cases hb : has_run cells job_key with
    | true =>
      rw [dispatch_slot_of_ran cells _ tk job_key ts hb]
      simpa using ih cells
    | false =>
      rw [dispatch_slot_of_clear cells _ tk job_key ts hb]
      rw [dispatch_runs_of_ran (mark_job_as_triggered cells job_key ts) job_key rest
        (mark_job_has_run cells job_key ts)]
      simp [List.count_cons]

/-! ## Claim theorems -/

/-- C9: if the dispatcher's ledger scan fails with an error, `check_if_job_ran`
returns true (the job is assumed to have already run), and the dispatcher slot
therefore records nothing and invokes nothing: it skips rather than risking a
duplicate delivery. -/
theorem check_error_assumes_already_ran (job_key : String) :
    check_if_job_ran none job_key = true ∧
      ∀ (cells : Cells) (time_key ts : String),
        dispatch_slot cells none time_key job_key ts = ([], cells) :=
  ⟨rfl, fun cells tk ts => dispatch_slot_of_ran cells none tk job_key ts rfl⟩

/-- C4 counterexample: with the ledger's columns permuted (an arrangement the
dispatcher's order-independent header validation accepts), `check_if_job_ran`
misses a key that is present in the `job_key` column, because it scans column
A positionally rather than locating the key column by header name. -/
theorem has_run_scans_column_a_not_by_name :
    "time1_2025-03-14" ∈ key_column_values
        [["status", "job_key", "trigger_timestamp_utc"],
         ["TRIGGERED", "time1_2025-03-14", "2025-03-14 06:00:00 UTC"]] ∧
    has_run
        [["status", "job_key", "trigger_timestamp_utc"],
         ["TRIGGERED", "time1_2025-03-14", "2025-03-14 06:00:00 UTC"]]
        "time1_2025-03-14" = false := by
  refine ⟨by decide, by decide⟩

/-- C4 (amended): `check_if_job_ran` returns true exactly when the key occurs
anywhere in the full first column of the ledger grid (header cell included):
the scan is complete but positional (column A), not a lookup of the `job_key`
column by header name. -/
theorem has_run_iff_mem_first_column (cells : Cells) (job_key : String) :
    has_run cells job_key = true ↔ job_key ∈ col_values_1 cells :=
  has_run_iff cells job_key

/-- C5: `mark_job_as_triggered` appends exactly one row `(job_key, ts,
"TRIGGERED")` at the end of the ledger, leaving every existing row unchanged,
and afterwards `check_if_job_ran` finds the key.  Under the sequential
dispatcher protocol at most one `recordRun` is ever issued for a given key,
and whenever a slot fires, the ledger append precedes the job invocation in
the emitted action sequence. -/
theorem record_run_appends_and_locks (cells : Cells) (job_key ts time_key : String)
    (runs : List (String × String)) :
    mark_job_as_triggered cells job_key ts = cells ++ [[job_key, ts, "TRIGGERED"]] ∧
    (mark_job_as_triggered cells job_key ts).length = cells.length + 1 ∧
    (∀ i : Nat, i < cells.length →
      (mark_job_as_triggered cells job_key ts)[i]? = cells[i]?) ∧
    has_run (mark_job_as_triggered cells job_key ts) job_key = true ∧
    (dispatch_runs cells job_key runs).1.count (DispatchAction.recordRun job_key) ≤ 1 ∧
    ((dispatch_slot cells (some (col_values_1 cells)) time_key job_key ts).1 = [] ∨
      (dispatch_slot cells (some (col_values_1 cells)) time_key job_key ts).1 =
        [DispatchAction.recordRun job_key, DispatchAction.invokeJob time_key]) := by
  refine ⟨rfl, by simp [mark_job_as_triggered], ?_,
    mark_job_has_run cells job_key ts,
    dispatch_runs_record_once cells job_key runs, ?_⟩
  · intro i hi
    rw [mark_job_as_triggered, List.getElem?_append, if_pos hi]
  · cases hb : has_run cells job_key with
    | true => exact Or.inl (by rw [dispatch_slot_of_ran _ _ _ _ _ hb])
    | false => exact Or.inr (by rw [dispatch_slot_of_clear _ _ _ _ _ hb])

/-- C8: when the header lacks a `used` or a `date_used` column,
`mark_item_as_used` writes no cell at all; when both are present, its one
batched write sets `used` to `"TRUE"` and `date_used` to the timestamp in
exactly the addressed row, leaving every other cell of the grid unchanged. -/
theorem mark_item_as_used_schema (cells : Cells) (r : Nat) (now : String) :
    ((listIndex (cells.headD []) "used" = none ∨
        listIndex (cells.headD []) "date_used" = none) →
      mark_item_as_used cells r now = cells) ∧
    (∀ u d : Nat, listIndex (cells.headD []) "used" = some u →
      listIndex (cells.headD []) "date_used" = some d →
      1 ≤ r → r - 1 < cells.length →
      getCell (mark_item_as_used cells r now) r (u + 1) = "TRUE" ∧
      getCell (mark_item_as_used cells r now) r (d + 1) = now ∧
      (∀ r' c' : Nat, 1 ≤ r' → 1 ≤ c' → r' ≠ r →
        getCell (mark_item_as_used cells r now) r' c' = getCell cells r' c') ∧
      (∀ c' : Nat, 1 ≤ c' → c' ≠ u + 1 → c' ≠ d + 1 →
        getCell (mark_item_as_used cells r now) r c' = getCell cells r c')) := by
  refine ⟨mark_eq_of_missing cells r now, ?_⟩
  intro u d hu hd h1 hr
  exact ⟨mark_getCell_used cells r now u d hu hd h1 hr,
    mark_getCell_date cells r now u d hu hd h1 hr,
    fun r' c' h3 h4 hner =>
      mark_getCell_other_row cells r now u d hu hd h1 r' c' h3 h4 hner,
    fun c' h4 hne1 hne2 =>
      mark_getCell_other_col cells r now u d hu hd h1 c' h4 hne1 hne2⟩

/-- C8 witness: a store without the columns is untouched; a store with both
columns receives the two cell writes in the addressed row. -/
theorem mark_item_as_used_schema_witness :
    mark_item_as_used [["language"], ["x"]] 2 "t" = [["language"], ["x"]] ∧
    getCell (mark_item_as_used [["used", "date_used"], ["FALSE", ""]] 2 "t") 2 1 =
      "TRUE" ∧
    getCell (mark_item_as_used [["used", "date_used"], ["FALSE", ""]] 2 "t") 2 2 = "t" :=
  ⟨(mark_item_as_used_schema [["language"], ["x"]] 2 "t").1 (Or.inl (by decide)),
   ((mark_item_as_used_schema [["used", "date_used"], ["FALSE", ""]] 2 "t").2 0 1
      (by decide) (by decide) (by decide) (by decide)).1,
   ((mark_item_as_used_schema [["used", "date_used"], ["FALSE", ""]] 2 "t").2 0 1
      (by decide) (by decide) (by decide) (by decide)).2.1⟩

/-- C6 counterexample: the source lowercases only the row's language, never
the filter, so the filter `"Slovak"` excludes an unused row whose language
matches it case-insensitively. -/
theorem language_filter_uppercase_mismatch :
    isUnusedRow ["used", "language"] ["FALSE", "Slovak"] = true ∧
    strLower (rowGet ["used", "language"] ["FALSE", "Slovak"] "language") =
      strLower "Slovak" ∧
    filter_unused_items ["used", "language"] [["FALSE", "Slovak"]] (some "Slovak") =
      [] := by
  refine ⟨by decide, by decide, by decide⟩

/-- C6 (amended): under a language filter `f` the candidates are exactly the
unused rows whose lowercased `language` equals `f` literally: every
candidate's language lowercases to `f` (so it never differs from `f`
case-insensitively), and when `f` is itself lowercase, every unused row
matching `f` case-insensitively is a candidate.  A filter containing an
uppercase letter matches no row (see the counterexample). -/
theorem language_filter_lowercase_exact (header : List String)
    (rows : List (List String)) (f : String) :
    (∀ p ∈ filter_unused_items header rows (some f),
      strUpper (rowGet header p.2 "used") = "FALSE" ∧
      strLower (rowGet header p.2 "language") = f) ∧
    (strLower f = f →
      ∀ (j : Nat) (row : List String), rows[j]? = some row →
        isUnusedRow header row = true →
        strLower (rowGet header row "language") = strLower f →
        (j + 2, row) ∈ filter_unused_items header rows (some f)) := by
  constructor
  · intro p hp
    obtain ⟨j, h1, h2, h3, h4⟩ := (mem_filter_unused header rows (some f) p).mp hp
    refine ⟨?_, ?_⟩
    · have hb : (strUpper (rowGet header p.2 "used") == "FALSE") = true := h3
      exact eq_of_beq hb
    · have hb : (strLower (rowGet header p.2 "language") == f) = true := h4
      exact eq_of_beq hb
  · intro hf j row hj hun hlang
    apply (mem_filter_unused header rows (some f) (j + 2, row)).mpr
    refine ⟨j, by simpa using hj, rfl, hun, ?_⟩
    show (strLower (rowGet header row "language") == f) = true
    rw [hlang, hf]
    simp

/-- C6 witness: with the lowercase filter `"slovak"`, an unused row whose
language matches case-insensitively is a candidate. -/
theorem language_filter_lowercase_exact_witness :
    (2, ["FALSE", "SLOVAK"]) ∈
      filter_unused_items ["used", "language"] [["FALSE", "SLOVAK"]]
        (some "slovak") :=
  (language_filter_lowercase_exact ["used", "language"] [["FALSE", "SLOVAK"]]
    "slovak").2 (by decide) 0 ["FALSE", "SLOVAK"] rfl (by decide) (by decide)

/-- C1 counterexample: the filter accepts `used` values case-insensitively, so
the draw can return a row whose `used` cell is `"false"`: the returned record
does not carry the literal string `"FALSE"` the claim promises, even though a
row with the literal value exists. -/
theorem select_can_return_noncanonical_false :
    rowGet ["used"] ["FALSE"] "used" = "FALSE" ∧
    get_unused_item [["used"], ["FALSE"], ["false"]] none 1 =
      (some (3, ["false"]), [["used"], ["FALSE"], ["false"]]) ∧
    rowGet ["used"] ["false"] "used" ≠ "FALSE" := by
  refine ⟨by decide, by decide, by decide⟩

/-- C1 (amended): for a store with at least one candidate row (`used`
uppercasing to "FALSE", language matching when filtered), `get_unused_item`
returns a candidate without mutating the store: the row index is at least 2,
the record is the store's data row at that index, and its `used` value
uppercases to `"FALSE"` (not necessarily literally).  The draw is uniform over
the candidate list: candidates have pairwise distinct row indices and every
candidate is the result of some draw below the candidate count. -/
theorem get_unused_item_uniform_selection (cells : Cells) (lang : Option String)
    (k : Nat)
    (hne : filter_unused_items (cells.headD []) cells.tail lang ≠ []) :
    (∃ p : Nat × List String,
      get_unused_item cells lang k = (some p, cells) ∧
      p ∈ filter_unused_items (cells.headD []) cells.tail lang ∧
      2 ≤ p.1 ∧ cells.tail[p.1 - 2]? = some p.2 ∧
      strUpper (rowGet (cells.headD []) p.2 "used") = "FALSE") ∧
    (filter_unused_items (cells.headD []) cells.tail lang).Pairwise
      (fun p q => p.1 ≠ q.1) ∧
    (∀ q ∈ filter_unused_items (cells.headD []) cells.tail lang,
      ∃ m : Nat, m < (filter_unused_items (cells.headD []) cells.tail lang).length ∧
        get_unused_item cells lang m = (some q, cells)) := by
  refine ⟨?_, ?_, ?_⟩
  · have hmem := getD_mod_mem (filter_unused_items (cells.headD []) cells.tail lang)
      k (0, []) hne
    obtain ⟨j, h1, h2, h3, h4⟩ := (mem_filter_unused _ _ _ _).mp hmem
    refine ⟨_, get_unused_item_of_nonempty cells lang k hne, hmem, by omega, ?_, ?_⟩
    · rw [h2]
      simpa using h1
    · exact eq_of_beq h3
  · exact (filterUnusedFrom_pairwise (cells.headD []) lang cells.tail 0).imp
      (fun h => Nat.ne_of_lt h)
  · intro q hq
    obtain ⟨n, hn, he⟩ := List.mem_iff_getElem.mp hq
    refine ⟨n, hn, ?_⟩
    rw [get_unused_item_of_nonempty cells lang n hne, Nat.mod_eq_of_lt hn,
      getD_eq_getElem _ _ _ hn, he]

/-- C1 witness: a one-row store with `used = "FALSE"` satisfies the
hypothesis, and the selection behaves as stated. -/
theorem get_unused_item_uniform_selection_witness :
    filter_unused_items ["used"] [["FALSE"]] none ≠ [] ∧
    ((∃ p : Nat × List String,
        get_unused_item [["used"], ["FALSE"]] none 0 =
          (some p, [["used"], ["FALSE"]]) ∧
        p ∈ filter_unused_items ["used"] [["FALSE"]] none ∧
        2 ≤ p.1 ∧ ([["FALSE"]] : Cells)[p.1 - 2]? = some p.2 ∧
        strUpper (rowGet ["used"] p.2 "used") = "FALSE") ∧
      (filter_unused_items ["used"] [["FALSE"]] none).Pairwise
        (fun p q => p.1 ≠ q.1) ∧
      (∀ q ∈ filter_unused_items ["used"] [["FALSE"]] none,
        ∃ m : Nat, m < (filter_unused_items ["used"] [["FALSE"]] none).length ∧
          get_unused_item [["used"], ["FALSE"]] none m =
            (some q, [["used"], ["FALSE"]]))) :=
  ⟨by decide, get_unused_item_uniform_selection [["used"], ["FALSE"]] none 0 (by decide)⟩

/-- C2: when the filtered unused set of a store with data rows and a `used`
column is empty, `get_unused_item` performs one reset and retries once: if no
row matches the language filter, the reset fails and the call returns the
untouched store with no item; otherwise the reset's single batched update
rewrites the `used` cell of exactly the rows matching the filter (every row
when there is no filter) to `"FALSE"`, leaving all other cells unchanged, and
the retried selection returns a candidate from the freshly reset data, or no
item when even the reset data yields none. -/
theorem get_unused_item_exhaustion_reset (cells : Cells) (lang : Option String)
    (k u : Nat)
    (hlen : 2 ≤ cells.length)
    (hu : listIndex (cells.headD []) "used" = some u)
    (hempty : filter_unused_items (cells.headD []) cells.tail lang = []) :
    (resetRowsFrom (cells.headD []) lang 0 cells.tail = [] →
      reset_used_flags cells lang = none ∧
      get_unused_item cells lang k = (none, cells)) ∧
    (resetRowsFrom (cells.headD []) lang 0 cells.tail ≠ [] →
      ∃ cells2 : Cells, reset_used_flags cells lang = some cells2 ∧
        (∀ (j : Nat) (row : List String), cells.tail[j]? = some row →
          langMatches (cells.headD []) lang row = true →
          getCell cells2 (j + 2) (u + 1) = "FALSE") ∧
        (∀ r c : Nat, 1 ≤ r → 1 ≤ c →
          (r ∉ resetRowsFrom (cells.headD []) lang 0 cells.tail ∨ c ≠ u + 1) →
          getCell cells2 r c = getCell cells r c) ∧
        (filter_unused_items (cells.headD []) cells2.tail lang = [] →
          get_unused_item cells lang k = (none, cells2)) ∧
        (filter_unused_items (cells.headD []) cells2.tail lang ≠ [] →
          ∃ p : Nat × List String,
            p ∈ filter_unused_items (cells.headD []) cells2.tail lang ∧
            get_unused_item cells lang k = (some p, cells2))) := by
  constructor
  · intro hnil
    have hr := reset_used_flags_none_of_rows_nil cells lang hnil
    exact ⟨hr, get_unused_item_exhausted_none cells lang k hempty hr⟩
  · intro hne
    have hr := reset_used_flags_some_intro cells lang u hlen hu hne
    refine ⟨_, hr, ?_, ?_, ?_, ?_⟩
    · intro j row hj hl
      apply reset_cell_false cells lang u _ (j + 2) hu hr
      exact (mem_resetRowsFrom _ _ _ _ _).mpr ⟨j, row, hj, by omega, hl⟩
    · intro r c h1 h2 hno
      exact reset_cell_other cells lang u _ r c hr hu h1 h2 hno
    · intro hf2
      rw [get_unused_item_exhausted_some cells lang k _ hempty hr,
        if_pos (by rw [hf2]; rfl)]
    · intro hf2
      rw [get_unused_item_exhausted_some cells lang k _ hempty hr,
        if_neg (by simpa [List.isEmpty_iff] using hf2)]
      exact ⟨_, getD_mod_mem _ k _ hf2, rfl⟩

/-- C2 witness: a fully used one-row store is reset and the retry returns the
freshly reset row. -/
theorem get_unused_item_exhaustion_reset_witness :
    2 ≤ ([["used", "language"], ["TRUE", "en"]] : Cells).length ∧
    listIndex ["used", "language"] "used" = some 0 ∧
    filter_unused_items ["used", "language"] [["TRUE", "en"]] none = [] ∧
    ((resetRowsFrom ["used", "language"] none 0 [["TRUE", "en"]] = [] →
        reset_used_flags [["used", "language"], ["TRUE", "en"]] none = none ∧
        get_unused_item [["used", "language"], ["TRUE", "en"]] none 0 =
          (none, [["used", "language"], ["TRUE", "en"]])) ∧
      (resetRowsFrom ["used", "language"] none 0 [["TRUE", "en"]] ≠ [] →
        ∃ cells2 : Cells,
          reset_used_flags [["used", "language"], ["TRUE", "en"]] none = some cells2 ∧
          (∀ (j : Nat) (row : List String),
            ([["TRUE", "en"]] : Cells)[j]? = some row →
            langMatches ["used", "language"] none row = true →
            getCell cells2 (j + 2) (0 + 1) = "FALSE") ∧
          (∀ r c : Nat, 1 ≤ r → 1 ≤ c →
            (r ∉ resetRowsFrom ["used", "language"] none 0 [["TRUE", "en"]] ∨
              c ≠ 0 + 1) →
            getCell cells2 r c =
              getCell [["used", "language"], ["TRUE", "en"]] r c) ∧
          (filter_unused_items ["used", "language"] cells2.tail none = [] →
            get_unused_item [["used", "language"], ["TRUE", "en"]] none 0 =
              (none, cells2)) ∧
          (filter_unused_items ["used", "language"] cells2.tail none ≠ [] →
            ∃ p : Nat × List String,
              p ∈ filter_unused_items ["used", "language"] cells2.tail none ∧
              get_unused_item [["used", "language"], ["TRUE", "en"]] none 0 =
                (some p, cells2)))) :=
  ⟨by decide, by decide, by decide,
    get_unused_item_exhaustion_reset [["used", "language"], ["TRUE", "en"]] none 0 0
      (by decide) (by decide) (by decide)⟩

/-- C10 counterexample: in a store whose header lacks a `used` column every
row is treated as used (never a candidate), but contrary to the claim the
reset rewrites nothing — `list.index("used")` raises, `_reset_used_flags`
returns False, and the row never becomes selectable. -/
theorem missing_used_column_reset_fails :
    filter_unused_items ["language"] [["en"]] none = [] ∧
    reset_used_flags [["language"], ["en"]] none = none ∧
    get_unused_item [["language"], ["en"]] none 0 = (none, [["language"], ["en"]]) := by
  refine ⟨by decide, by decide, by decide⟩

/-- C10 (amended): a data row whose `used` value is anything other than a
case-insensitive variant of `"FALSE"` (empty, `"TRUE"` in any case, arbitrary
text, or a missing cell) is treated as used: it is never a candidate.
Provided the header does contain a `used` column, a reset covering the row
(it matches the language filter) rewrites its `used` cell to `"FALSE"`, after
which the row is a candidate again.  When the header lacks a `used` column
the reset fails and rewrites nothing (see the counterexample). -/
theorem non_false_used_treated_as_used (cells : Cells) (lang : Option String)
    (u j : Nat) (row : List String)
    (hcount : (cells.headD []).count "used" = 1)
    (hu : listIndex (cells.headD []) "used" = some u)
    (hlcount : (cells.headD []).count "language" ≤ 1)
    (hrow : cells.tail[j]? = some row)
    (hused : strUpper (rowGet (cells.headD []) row "used") ≠ "FALSE")
    (hlang : langMatches (cells.headD []) lang row = true) :
    (∀ p ∈ filter_unused_items (cells.headD []) cells.tail lang, p.1 ≠ j + 2) ∧
    ∃ cells2 : Cells, reset_used_flags cells lang = some cells2 ∧
      getCell cells2 (j + 2) (u + 1) = "FALSE" ∧
      (j + 2, padSet row u "FALSE") ∈
        filter_unused_items (cells.headD []) cells2.tail lang := by
  have hue : (cells.headD [])[u]? = some "used" :=
    listIndex_getElem? (cells.headD []) "used" u hu
  constructor
  · intro p hp heq
    obtain ⟨j2, hj2, hpj, hun, _⟩ := (mem_filter_unused _ _ _ _).mp hp
    have hjj : j2 = j := by omega
    rw [hjj, hrow] at hj2
    have hp2 : p.2 = row := by simpa using hj2.symm
    rw [hp2] at hun
    exact hused (eq_of_beq hun)
  · have htail : cells.tail ≠ [] := by
      intro h0
      rw [h0] at hrow
      cases hrow
    have hlen : 2 ≤ cells.length := by
      have := length_two_of_tail_ne_nil cells htail
      omega
    have hmem : (j + 2) ∈ resetRowsFrom (cells.headD []) lang 0 cells.tail :=
      (mem_resetRowsFrom _ _ _ _ _).mpr ⟨j, row, hrow, by omega, hlang⟩
    have hrowsne : resetRowsFrom (cells.headD []) lang 0 cells.tail ≠ [] :=
      List.ne_nil_of_mem hmem
    have hr := reset_used_flags_some_intro cells lang u hlen hu hrowsne
    refine ⟨_, hr, reset_cell_false cells lang u _ (j + 2) hu hr hmem, ?_⟩
    have hj2 := reset_row_padSet cells lang u _ j row hu hr hrow hmem
    apply (mem_filter_unused _ _ _ _).mpr
    refine ⟨j, hj2, rfl, ?_, ?_⟩
    · show (strUpper (rowGet (cells.headD []) (padSet row u "FALSE") "used") ==
        "FALSE") = true
      rw [rowGet_eq_getD (cells.headD []) (padSet row u "FALSE") "used" u hcount hue,
        padSet_getD_self]
      decide
    · cases lang with
      | none => rfl
      | some f =>
        show (strLower (rowGet (cells.headD []) (padSet row u "FALSE") "language") ==
          f) = true
        rw [rowGet_padSet_ne (cells.headD []) row "language" "used" u "FALSE"
          hlcount hue (by decide)]
        exact hlang

/-- C10 witness: a one-row store with `used = "TRUE"`: the row is not a
candidate, and the reset rewrites it to `"FALSE"` and makes it one. -/
theorem non_false_used_treated_as_used_witness :
    (["used"] : List String).count "used" = 1 ∧
    listIndex ["used"] "used" = some 0 ∧
    (["used"] : List String).count "language" ≤ 1 ∧
    ([["TRUE"]] : Cells)[0]? = some ["TRUE"] ∧
    strUpper (rowGet ["used"] ["TRUE"] "used") ≠ "FALSE" ∧
    langMatches ["used"] none ["TRUE"] = true ∧
    ((∀ p ∈ filter_unused_items ["used"] [["TRUE"]] none, p.1 ≠ 0 + 2) ∧
      ∃ cells2 : Cells, reset_used_flags [["used"], ["TRUE"]] none = some cells2 ∧
        getCell cells2 (0 + 2) (0 + 1) = "FALSE" ∧
        (0 + 2, padSet ["TRUE"] 0 "FALSE") ∈
          filter_unused_items ["used"] cells2.tail none) :=
  ⟨by decide, by decide, by decide, by decide, by decide, rfl,
    non_false_used_treated_as_used [["used"], ["TRUE"]] none 0 0 ["TRUE"]
      (by decide) (by decide) (by decide) (by decide) (by decide) rfl⟩

/-- C3: after `mark_item_as_used` succeeds on data row `r` (both columns
present, header naming `used` once), row `r` is no longer a candidate; if a
later `get_unused_item` nevertheless returns index `r`, it can only have gone
through the auto-reset: the marked store had no candidates at all and the
returned state carries `"FALSE"` in row `r`'s `used` cell, rewritten by that
reset.  Moreover `mark_item_as_used` never turns any row from used to unused,
and a selection that finds a candidate leaves the grid unchanged — only the
reset path mutates flags back. -/
theorem mark_used_row_not_reselected (cells : Cells) (r : Nat) (now : String)
    (u d : Nat)
    (hcount : (cells.headD []).count "used" = 1)
    (hu : listIndex (cells.headD []) "used" = some u)
    (hd : listIndex (cells.headD []) "date_used" = some d)
    (h2r : 2 ≤ r) :
    (∀ p ∈ filter_unused_items ((mark_item_as_used cells r now).headD [])
        (mark_item_as_used cells r now).tail none, p.1 ≠ r) ∧
    (∀ (k : Nat) (res : Nat × List String) (cells' : Cells),
      get_unused_item (mark_item_as_used cells r now) none k = (some res, cells') →
      res.1 = r →
      filter_unused_items ((mark_item_as_used cells r now).headD [])
        (mark_item_as_used cells r now).tail none = [] ∧
      getCell cells' r (u + 1) = "FALSE") ∧
    (∀ j : Nat, rowUnused (mark_item_as_used cells r now) j = true →
      rowUnused cells j = true) ∧
    (∀ (cs : Cells) (lg : Option String) (k : Nat),
      filter_unused_items (cs.headD []) cs.tail lg ≠ [] →
      (get_unused_item cs lg k).2 = cs) := by
  have hhead := mark_headD cells r now h2r
  have hi : ∀ p ∈ filter_unused_items ((mark_item_as_used cells r now).headD [])
      (mark_item_as_used cells r now).tail none, p.1 ≠ r := by
    rw [hhead]
    exact mark_not_in_filter cells r now u d none hcount hu hd h2r
  refine ⟨hi, ?_, ?_, ?_⟩
  · intro k res cells' hsel hres
    by_cases hf : filter_unused_items ((mark_item_as_used cells r now).headD [])
        (mark_item_as_used cells r now).tail none = []
    case neg =>
      exfalso
      rw [get_unused_item_of_nonempty _ none k hf, Prod.mk.injEq] at hsel
      obtain ⟨h1, h2⟩ := hsel
      have hres_mem := getD_mod_mem (filter_unused_items
        ((mark_item_as_used cells r now).headD [])
        (mark_item_as_used cells r now).tail none) k (0, []) hf
      rw [Option.some.inj h1] at hres_mem
      exact hi res hres_mem hres
    case pos =>
      refine ⟨hf, ?_⟩
      cases hrst : reset_used_flags (mark_item_as_used cells r now) none with
      | none =>
        rw [get_unused_item_exhausted_none _ none k hf hrst, Prod.mk.injEq] at hsel
        obtain ⟨h1, h2⟩ := hsel
        simp at h1
      | some cells2 =>
        rw [get_unused_item_exhausted_some _ none k cells2 hf hrst] at hsel
        by_cases hf2 : filter_unused_items ((mark_item_as_used cells r now).headD [])
            cells2.tail none = []
        · rw [if_pos (by rw [hf2]; rfl), Prod.mk.injEq] at hsel
          obtain ⟨h1, h2⟩ := hsel
          simp at h1
        · rw [if_neg (by simpa [List.isEmpty_iff] using hf2), Prod.mk.injEq] at hsel
          obtain ⟨h1, h2⟩ := hsel
          have hmem2 := getD_mod_mem (filter_unused_items
            ((mark_item_as_used cells r now).headD []) cells2.tail none) k (0, []) hf2
          rw [Option.some.inj h1] at hmem2
          obtain ⟨j, hj, hpj, _, _⟩ := (mem_filter_unused _ _ _ _).mp hmem2
          have hjlt := (List.getElem?_eq_some.mp hj).1
          have hlen2 := reset_length _ none cells2 hrst
          have hMtail : (mark_item_as_used cells r now).tail.length =
              (mark_item_as_used cells r now).length - 1 := List.length_tail _
          have hc2tail : cells2.tail.length = cells2.length - 1 := List.length_tail _
          have hjM : j < (mark_item_as_used cells r now).tail.length := by omega
          have hrowM := List.getElem?_eq_getElem hjM
          have hmemr : (j + 2) ∈ resetRowsFrom
              ((mark_item_as_used cells r now).headD []) none 0
              (mark_item_as_used cells r now).tail :=
            (mem_resetRowsFrom _ _ _ _ _).mpr ⟨j, _, hrowM, by omega, rfl⟩
          have huM : listIndex ((mark_item_as_used cells r now).headD []) "used" =
              some u := by rw [hhead]; exact hu
          have hcell := reset_cell_false (mark_item_as_used cells r now) none u
            cells2 (j + 2) huM hrst hmemr
          rw [← h2, show r = j + 2 from by omega]
          exact hcell
  · intro j hj
    have hj1 : isUnusedRow ((mark_item_as_used cells r now).headD [])
        (((mark_item_as_used cells r now)[j - 1]?).getD []) = true := hj
    by_cases hjr : j - 1 = r - 1
    · exfalso
      rw [hhead, hjr, mark_row_padSet cells r now u d hu hd] at hj1
      cases hx : cells[r - 1]? with
      | none =>
        rw [hx] at hj1
        have hj3 : (strUpper (rowGet (cells.headD []) [] "used") == "FALSE") = true :=
          hj1
        rw [rowGet_nil] at hj3
        exact absurd hj3 (by decide)
      | some row =>
        rw [hx] at hj1
        have hj2 : isUnusedRow (cells.headD [])
            (padSet (padSet row u "TRUE") d now) = true := hj1
        rw [isUnusedRow_after_mark (cells.headD []) row u d now hcount hu hd] at hj2
        cases hj2
    · rw [hhead, mark_getElem?_row_ne cells r now (j - 1) hjr] at hj1
      exact hj1
  · intro cs lg k hne
    rw [get_unused_item_of_nonempty cs lg k hne]

/-- C3 witness: a single-row store, marked used at row 2; the conclusions hold
at this concrete instance. -/
theorem mark_used_row_not_reselected_witness :
    (["used", "date_used"] : List String).count "used" = 1 ∧
    listIndex ["used", "date_used"] "used" = some 0 ∧
    listIndex ["used", "date_used"] "date_used" = some 1 ∧
    2 ≤ 2 ∧
    ((∀ p ∈ filter_unused_items
        ((mark_item_as_used [["used", "date_used"], ["FALSE", ""]] 2 "ts").headD [])
        (mark_item_as_used [["used", "date_used"], ["FALSE", ""]] 2 "ts").tail none,
        p.1 ≠ 2) ∧
      (∀ (k : Nat) (res : Nat × List String) (cells' : Cells),
        get_unused_item (mark_item_as_used [["used", "date_used"], ["FALSE", ""]] 2 "ts")
          none k = (some res, cells') →
        res.1 = 2 →
        filter_unused_items
          ((mark_item_as_used [["used", "date_used"], ["FALSE", ""]] 2 "ts").headD [])
          (mark_item_as_used [["used", "date_used"], ["FALSE", ""]] 2 "ts").tail none =
          [] ∧
        getCell cells' 2 (0 + 1) = "FALSE") ∧
      (∀ j : Nat,
        rowUnused (mark_item_as_used [["used", "date_used"], ["FALSE", ""]] 2 "ts") j =
          true →
        rowUnused [["used", "date_used"], ["FALSE", ""]] j = true) ∧
      (∀ (cs : Cells) (lg : Option String) (k : Nat),
        filter_unused_items (cs.headD []) cs.tail lg ≠ [] →
        (get_unused_item cs lg k).2 = cs)) :=
  ⟨by decide, by decide, by decide, by decide,
    mark_used_row_not_reselected [["used", "date_used"], ["FALSE", ""]] 2 "ts" 0 1
      (by decide) (by decide) (by decide) (by decide)⟩

/-- C7 counterexample: in `_get_rotating_content` a category row can be
selected and yet not consumed: when the selected row's `content` cell is
empty, the function returns before `mark_item_as_used`, the rotation grid
comes back untouched — not the marked grid — and the row is still a
candidate for the next rotation. -/
theorem rotating_content_empty_key_not_marked :
    get_unused_item [["used", "date_used", "content"], ["FALSE", "", ""]] none 0 =
      (some (2, ["FALSE", "", ""]),
        [["used", "date_used", "content"], ["FALSE", "", ""]]) ∧
    (get_rotating_content [["used", "date_used", "content"], ["FALSE", "", ""]]
        (fun _ => none) 0 0 "n1" "n2").2.1 =
      [["used", "date_used", "content"], ["FALSE", "", ""]] ∧
    (get_rotating_content [["used", "date_used", "content"], ["FALSE", "", ""]]
        (fun _ => none) 0 0 "n1" "n2").2.1 ≠
      mark_item_as_used [["used", "date_used", "content"], ["FALSE", "", ""]] 2 "n1" ∧
    (2, ["FALSE", "", ""]) ∈ filter_unused_items ["used", "date_used", "content"]
      [["FALSE", "", ""]] none := by
  refine ⟨by decide, by decide, by decide, by decide⟩

/-- C7 (amended): in `_get_rotating_content`, once a category row has been
selected and its `content` value is non-empty, the category row is marked
used before the payload-store lookup: whatever the `data_sources` lookup, the
payload worksheet opening, and the payload selection later yield, the
rotation grid in the result is exactly the post-selection grid with
`mark_item_as_used` applied to the chosen category row, so the category token
is consumed even when the later steps fail.  When the selected row's
`content` cell is empty or missing, the function instead returns before
marking and the token is not consumed (see the counterexample). -/
theorem rotating_content_marks_category_first (rotCells : Cells)
    (data_sources : String → Option (String × Option Cells))
    (k1 k2 : Nat) (now1 now2 : String) (rot_idx : Nat) (rot_row : List String)
    (sel2 : Cells)
    (hsel : get_unused_item rotCells none k1 = (some (rot_idx, rot_row), sel2))
    (hkey : rowGet (rotCells.headD []) rot_row "content" ≠ "") :
    (get_rotating_content rotCells data_sources k1 k2 now1 now2).2.1 =
      mark_item_as_used sel2 rot_idx now1 := by
  simp only [get_rotating_content, hsel]
  rw [if_neg hkey]
  cases data_sources (rowGet (rotCells.headD []) rot_row "content") with
  | none => rfl
  | some pr =>
    obtain ⟨header_text, wsOpt⟩ := pr
    cases wsOpt with
    | none => rfl
    | some contentCells =>
      cases hcs : (get_unused_item contentCells none k2).1 with
      | none => simp [hcs]
      | some q =>
        obtain ⟨ci, crow⟩ := q
        simp [hcs]

/-- C7 witness: the category row is selected and marked even though the
`data_sources` map has no entry for its content key. -/
theorem rotating_content_marks_category_first_witness :
    get_unused_item [["used", "date_used", "content"], ["FALSE", "", "wisdom"]]
        none 0 =
      (some (2, ["FALSE", "", "wisdom"]),
        [["used", "date_used", "content"], ["FALSE", "", "wisdom"]]) ∧
    rowGet ["used", "date_used", "content"] ["FALSE", "", "wisdom"] "content" ≠ "" ∧
    (get_rotating_content [["used", "date_used", "content"], ["FALSE", "", "wisdom"]]
        (fun _ => none) 0 0 "n1" "n2").2.1 =
      mark_item_as_used [["used", "date_used", "content"], ["FALSE", "", "wisdom"]]
        2 "n1" :=
  ⟨by decide, by decide,
    rotating_content_marks_category_first
      [["used", "date_used", "content"], ["FALSE", "", "wisdom"]] (fun _ => none)
      0 0 "n1" "n2" 2 ["FALSE", "", "wisdom"]
      [["used", "date_used", "content"], ["FALSE", "", "wisdom"]]
      (by decide) (by decide)⟩

end PulserBot
